import Mathlib

/-!
Verification development for the kcp-go session/listener layer (sess.go).

The file shallowly embeds the packet-processing code of `sess.go`:
the `Write`/`Read`/`Close` state machine of `UDPSession`, the egress
pipeline (`UDPSession.output` and the KCP output callback installed in
`newUDPSession`), the ingress pipeline (`UDPSession.readLoop`,
`UDPSession.kcpInput`) and the listener demultiplexer
(`Listener.monitor`).  Bytes are modelled as `Nat` values below 256 held
in `List Nat`; machine integers that the code reads little-endian are
reconstructed explicitly.

The KCP ARQ core (`kcp.go`), the FEC codec (`fec.go`) and the crypto
objects are not part of the given source tree; where their behaviour is
needed it is modelled from the specification and marked as such in the
doc comment of the definition.  The Reed-Solomon reconstruction and the
block cipher are treated as oracles (function parameters), exactly as
the specification treats them.
-/

namespace KcpGo

/-- Constant from sess.go: 16-byte nonce prepended to each encrypted packet. -/
def nonceSize : Nat := 16

/-- Constant from sess.go: 4-byte CRC32 checksum field. -/
def crcSize : Nat := 4

/-- Constant from sess.go: overall crypto header size (nonce + crc). -/
def cryptHeaderSize : Nat := nonceSize + crcSize

/-- Constant from sess.go: accept backlog, the capacity of `chAccepts`. -/
def acceptBacklog : Nat := 128

/-- Modelled from the spec: `kcp_overhead=24`; the constant lives in
kcp.go which is not under the given source tree. -/
def IKCP_OVERHEAD : Nat := 24

/-- Modelled from the spec: `fec_header=6`; the constant lives in fec.go
which is not under the given source tree. -/
def fecHeaderSize : Nat := 6

/-- Modelled from the spec: `fec_header_plus2=8`; the constant lives in
fec.go which is not under the given source tree. -/
def fecHeaderSizePlus2 : Nat := 8

/-- Modelled from the spec: FEC flag value for data shards (`0xF1`);
the constant lives in fec.go which is not under the given source tree. -/
def typeData : Nat := 0xF1

/-- Modelled from the spec: FEC flag value for parity shards (`0xF2`);
the constant lives in fec.go which is not under the given source tree. -/
def typeFEC : Nat := 0xF2

/-- Little-endian 16-bit read, as `binary.LittleEndian.Uint16` does on
the first two bytes of a slice. -/
def leUint16 (l : List Nat) : Nat :=
  l.getD 0 0 + 256 * l.getD 1 0

/-- Big-endian 16-bit read of the first two bytes; this follows the
wording of the specification (`shard_len_be`), used to compare the
specified byte order against the code. -/
def beUint16 (l : List Nat) : Nat :=
  256 * l.getD 0 0 + l.getD 1 0

/-- Little-endian 32-bit read, as `binary.LittleEndian.Uint32` does on
the first four bytes of a slice. -/
def leUint32 (l : List Nat) : Nat :=
  l.getD 0 0 + 256 * l.getD 1 0 + 65536 * l.getD 2 0 + 16777216 * l.getD 3 0

/-- Little-endian 32-bit write, as `binary.LittleEndian.PutUint32`. -/
def putUint32 (n : Nat) : List Nat :=
  [n % 256, n / 256 % 256, n / 65536 % 256, n / 16777216 % 256]

/-- One KCP send-queue entry.  The payload is the byte list handed to
`KCP.Send`; `needResend` abstracts the timing conditions of flush step 5
of the spec (timeout retransmit / fast retransmit), which cannot change
while the session mutex is held. -/
structure Seg where
  payload : List Nat
  needResend : Bool
deriving DecidableEq, Repr

/-- Modelled from the spec (kcp.go is not under the given source tree):
the KCP core state that sess.go touches.  `snd_queue` holds segments not
yet admitted to the window, `snd_buf` the windowed in-flight segments,
`ackList` the pending acknowledgements flush would emit, `rcv_queue` the
complete in-order messages `Recv`/`PeekSize` operate on. -/
structure KCP where
  mss : Nat
  snd_wnd : Nat
  rmt_wnd : Nat
  cwnd : Nat
  nocwnd : Bool
  snd_queue : List Seg
  snd_buf : List Seg
  ackList : List Nat
  rcv_queue : List (List Nat)
deriving DecidableEq, Repr

/-- Modelled from the spec and the canonical KCP core: `WaitSnd` reports
the backlog, the number of segments in the send queue plus the send
buffer. -/
def KCP.waitSnd (k : KCP) : Nat :=
  k.snd_buf.length + k.snd_queue.length

/-- The Go fragmentation loop of `UDPSession.Write` (sess.go lines
267-275): emit the whole slice once it fits in `mss`, otherwise emit an
`mss`-byte prefix and continue on the rest.  The `mss = 0` case is
degenerate (the Go loop would not terminate); every theorem below
assumes `0 < mss` as the code guarantees. -/
def goChunks : Nat → List Nat → List (List Nat)
  | 0, b => [b]
  | m + 1, b =>
    if b.length ≤ m + 1 then [b]
    else b.take (m + 1) :: goChunks (m + 1) (b.drop (m + 1))
termination_by _ b => b.length
decreasing_by simp [List.length_drop]; omega

/-- Modelled from the spec: `Send(bytes)` appends to the send queue,
fragmenting into MSS-sized segments (message mode; sess.go only ever
passes slices of at most `mss` bytes, for which this appends exactly one
segment).  A zero-length slice appends nothing — the spec's boundary
behaviour, matching the upstream core which rejects empty buffers. -/
def KCP.send (k : KCP) (b : List Nat) : KCP :=
  if b.isEmpty then k
  else { k with snd_queue := k.snd_queue ++ (goChunks k.mss b).map (fun c => ⟨c, false⟩) }

/-- What flush hands to the output callback: acknowledgement segments or
data (PUSH) segments with their payload. -/
inductive Emit where
  | ack (sn : Nat)
  | push (payload : List Nat)
deriving DecidableEq, Repr

/-- Modelled from the spec (flush steps 1-5, kcp.go is not under the
given source tree), specialised to a single locked call during which no
time passes and no peer input arrives: emit pending acks, move segments
from the send queue into the send buffer while the buffer is below the
effective window `min(snd_wnd, rmt_wnd, cwnd)`, transmit the moved
segments (first transmission) and every buffered segment whose
retransmit condition holds (abstracted as `needResend`). -/
def KCP.flush (k : KCP) : KCP × List Emit :=
  let eff := if k.nocwnd then min k.snd_wnd k.rmt_wnd else min (min k.snd_wnd k.rmt_wnd) k.cwnd
  let space := eff - k.snd_buf.length
  let moved := k.snd_queue.take space
  let rest := k.snd_queue.drop space
  let acks := k.ackList.map Emit.ack
  let resends := (k.snd_buf.filter (fun g => g.needResend)).map (fun g => Emit.push g.payload)
  let fresh := moved.map (fun g => Emit.push g.payload)
  ({ k with snd_queue := rest
            snd_buf := (k.snd_buf.map (fun g => { g with needResend := false })) ++ moved
            ackList := [] },
   acks ++ resends ++ fresh)

/-- Payloads of all segments KCP currently holds on the send side, send
buffer first (window order), then the queue. -/
def KCP.pendingPayloads (k : KCP) : List (List Nat) :=
  (k.snd_buf ++ k.snd_queue).map Seg.payload

/-- Bytes currently pending on the send side, in order. -/
def KCP.pendingBytes (k : KCP) : List Nat :=
  k.pendingPayloads.flatten

/-- The sess.go for-loop inside `Write` (lines 267-275): feed `b` to
`KCP.Send` in pieces of at most `mss` bytes.  `mss` is passed explicitly
(it is `s.kcp.mss` at every call site and `Send` never changes it); the
`mss = 0` case is degenerate exactly as in `goChunks`. -/
def sendLoop (mss : Nat) (k : KCP) (b : List Nat) : KCP :=
  match mss with
  | 0 => k.send b
  | m + 1 =>
    if b.length ≤ m + 1 then k.send b
    else sendLoop (m + 1) (k.send (b.take (m + 1))) (b.drop (m + 1))
termination_by b.length
decreasing_by simp [List.length_drop]; omega

/-- Session state from sess.go that `Read`, `Write` and `Close` touch.
`isClient` is `l == nil` in the source; `connCloseResult` is the error
value the underlying carrier's `Close` would return (`none` for nil). -/
structure UDPSession where
  isClosed : Bool
  isClient : Bool
  connCloseResult : Option String
  writeDelay : Bool
  dup : Nat
  headerSize : Nat
  bufptr : List Nat
  kcp : KCP
deriving DecidableEq, Repr

/-- Outcome of one locked attempt of `UDPSession.Write`. -/
inductive WriteResult where
  | brokenPipe
  | timeout
  | blocked
  | ok (n : Nat)
deriving DecidableEq, Repr

/-- Result record of one `Write` attempt: outcome, new session state,
segments emitted through the output callback, and whether `kcp.flush`
was invoked. -/
structure WriteStep where
  res : WriteResult
  sess : UDPSession
  out : List Emit
  flushed : Bool
deriving DecidableEq, Repr

/-- One iteration of `UDPSession.Write` (sess.go lines 255-311) with the
mutex held.  If the session is closed it fails with broken-pipe; if the
backlog `WaitSnd` is below `snd_wnd` the slice is admitted: it is fed to
`KCP.Send` in MSS-sized pieces, then `kcp.flush` runs iff the queue
became saturated or `writeDelay` is false, and the call returns
`len(b)`.  Otherwise the attempt blocks (or fails with a timeout when
the write deadline has already passed — `wdPassed`). -/
def UDPSession.writeStep (s : UDPSession) (wdPassed : Bool) (b : List Nat) : WriteStep :=
  if s.isClosed then ⟨.brokenPipe, s, [], false⟩
  else if s.kcp.waitSnd < s.kcp.snd_wnd then
    let k1 := sendLoop s.kcp.mss s.kcp b
    if k1.waitSnd ≥ s.kcp.snd_wnd ∨ s.writeDelay = false then
      let fl := k1.flush
      ⟨.ok b.length, { s with kcp := fl.1 }, fl.2, true⟩
    else
      ⟨.ok b.length, { s with kcp := k1 }, [], false⟩
  else if wdPassed then ⟨.timeout, s, [], false⟩
  else ⟨.blocked, s, [], false⟩

/-- Outcome of one locked attempt of `UDPSession.Read`. -/
inductive ReadResult where
  | data (bytes : List Nat)
  | brokenPipe
  | timeout
  | blocked
deriving DecidableEq, Repr

/-- One iteration of `UDPSession.Read` (sess.go lines 184-252) with the
mutex held, reading into a caller buffer of capacity `cap`.  The order
of the source is kept: leftover bytes in `bufptr` are served first, the
`isClosed` check comes second, then KCP delivery via `PeekSize`/`Recv`
(modelled from the spec as a queue of complete messages: a message is
delivered whole when it fits in `cap`, otherwise `cap` bytes are copied
out and the rest parked in `bufptr`); otherwise the attempt blocks, or
times out when the read deadline has passed (`rdPassed`). -/
def UDPSession.readStep (s : UDPSession) (cap : Nat) (rdPassed : Bool) :
    ReadResult × UDPSession :=
  if s.bufptr.isEmpty = false then
    let n := min cap s.bufptr.length
    (.data (s.bufptr.take n), { s with bufptr := s.bufptr.drop n })
  else if s.isClosed then (.brokenPipe, s)
  else
    match s.kcp.rcv_queue with
    | msg :: rest =>
      if 0 < msg.length then
        if msg.length ≤ cap then
          (.data msg, { s with kcp := { s.kcp with rcv_queue := rest } })
        else
          (.data (msg.take cap),
           { s with kcp := { s.kcp with rcv_queue := rest }, bufptr := msg.drop cap })
      else if rdPassed then (.timeout, s) else (.blocked, s)
    | [] => if rdPassed then (.timeout, s) else (.blocked, s)

/-- Broken-pipe error string of sess.go. -/
def errBrokenPipe : String := "broken pipe"

/-- The body of `UDPSession.Close` (sess.go lines 314-333): a second
close fails with broken-pipe; the first close marks the session closed
and returns the carrier close result for a client session, nil for an
accepted one.  Unregistering from the updater and the listener carries
no return value and is outside this state. -/
def UDPSession.close (s : UDPSession) : Option String × UDPSession :=
  if s.isClosed then (some errBrokenPipe, s)
  else if s.isClient then (s.connCloseResult, { s with isClosed := true })
  else (none, { s with isClosed := true })

/-- Result of the decrypt-and-verify prologue shared verbatim by
`UDPSession.readLoop` (sess.go lines 663-676) and `Listener.monitor`
(lines 728-740).  `valid` carries the payload after the crypto header
when the packet passes, `csumIncr` the amount added to `InCsumErrors`,
`surfacedErr` any error handed to a caller (none on this path). -/
structure CryptoOut where
  valid : Option (List Nat)
  csumIncr : Nat
  surfacedErr : Option String
deriving DecidableEq, Repr

/-- The decrypt-and-verify prologue of both ingress loops.  With crypto
enabled the datagram is decrypted in place (the cipher is an oracle
parameter `decrypt`), the 16-byte nonce stripped, the IEEE CRC32 (oracle
parameter `crc`) of the bytes after the 4-byte checksum field compared
against the stored little-endian value; a mismatch drops the packet and
counts one `InCsumErrors`.  Without crypto the datagram passes as is. -/
def cryptoCheck (decrypt : List Nat → List Nat) (crc : List Nat → Nat)
    (hasBlock : Bool) (data : List Nat) : CryptoOut :=
  if hasBlock then
    let d := (decrypt data).drop nonceSize
    if crc (d.drop crcSize) = leUint32 d then ⟨some (d.drop crcSize), 0, none⟩
    else ⟨none, 1, none⟩
  else ⟨some data, 0, none⟩

/-- The per-shard branch of the recovered-shard loop in
`UDPSession.kcpInput` (sess.go lines 573-588): a recovered shard of at
least two bytes whose little-endian 16-bit prefix `sz` satisfies
`2 ≤ sz ≤ len(r)` yields the slice `r[2:sz]` for `KCP.Input`; any other
shard is dropped (`none`) and counted as one `FECErrs`. -/
def recoveredAction (r : List Nat) : Option (List Nat) :=
  if 2 ≤ r.length then
    let sz := leUint16 r
    if sz ≤ r.length ∧ 2 ≤ sz then some ((r.drop 2).take (sz - 2)) else none
  else none

/-- The recovered-shard branch as the specification words it for claim
C4, with the two-byte prefix read big-endian (`shard_len_be`); kept only
to compare the specified byte order against the code. -/
def recoveredActionSpecBE (r : List Nat) : Option (List Nat) :=
  if 2 ≤ r.length then
    let sz := beUint16 r
    if sz ≤ r.length ∧ 2 ≤ sz then some ((r.drop 2).take (sz - 2)) else none
  else none

/-- Accumulator of the recovered-shard loop: the `KCP.Input` calls made
(payload with its `regular` flag) and the counter increments. -/
structure RecAcc where
  calls : List (List Nat × Bool)
  fecErrs : Nat
  fecRecovered : Nat
  kcpInErrors : Nat
deriving DecidableEq, Repr

/-- The recovered-shard loop of `UDPSession.kcpInput` (sess.go lines
573-588) over the list the FEC decoder returned.  `inputOk r` is an
oracle for `KCP.Input(r, false, ackNoDelay) == 0` (kcp.go is not under
the given source tree); a successful input counts `FECRecovered`, a
failing one `KCPInErrors`. -/
def processRecovers (inputOk : List Nat → Bool) (recovers : List (List Nat)) : RecAcc :=
  recovers.foldl
    (fun a r =>
      match recoveredAction r with
      | some p =>
        if inputOk p then
          { a with calls := a.calls ++ [(p, false)], fecRecovered := a.fecRecovered + 1 }
        else
          { a with calls := a.calls ++ [(p, false)], kcpInErrors := a.kcpInErrors + 1 }
      | none => { a with fecErrs := a.fecErrs + 1 })
    ⟨[], 0, 0, 0⟩

/-- Counter and call record of one `UDPSession.kcpInput` run. -/
structure KcpInOut where
  calls : List (List Nat × Bool)
  fecErrs : Nat
  inErrs : Nat
  fecParityShards : Nat
  fecRecovered : Nat
  kcpInErrors : Nat
deriving DecidableEq, Repr

/-- The body of `UDPSession.kcpInput` (sess.go lines 553-634) for one
decrypted payload `data`.  With FEC enabled the packet must exceed the
6-byte FEC header and carry flag `typeData` or `typeFEC` (flag read
little-endian at offset 4); a data shard feeds `data[fecHeaderSizePlus2:]`
to `KCP.Input` with `regular=true`, then every shard the decoder
recovered is processed by the recovered-shard loop with `regular=false`.
The list of recovered shards is an oracle parameter `recovers` standing
for `fecDecoder.decode(f)` (fec.go and the Reed-Solomon codec are not
under the given source tree).  `inputOk` is the `KCP.Input == 0` oracle.
Without FEC the whole payload goes to `KCP.Input` with `regular=true`. -/
def kcpInput (fecEnabled : Bool) (inputOk : List Nat → Bool)
    (recovers : List (List Nat)) (data : List Nat) : KcpInOut :=
  if fecEnabled then
    if fecHeaderSize < data.length then
      let flag := leUint16 (data.drop 4)
      if flag = typeData ∨ flag = typeFEC then
        let parity := if flag = typeFEC then 1 else 0
        let direct : List (List Nat × Bool) :=
          if flag = typeData then [(data.drop fecHeaderSizePlus2, true)] else []
        let directErr :=
          if flag = typeData ∧ inputOk (data.drop fecHeaderSizePlus2) = false then 1 else 0
        let a := processRecovers inputOk recovers
        ⟨direct ++ a.calls, a.fecErrs, 0, parity, a.fecRecovered, directErr + a.kcpInErrors⟩
      else ⟨[], 0, 1, 0, 0, 0⟩
    else ⟨[], 0, 1, 0, 0, 0⟩
  else
    ⟨[(data, true)], 0, 0, 0, 0, if inputOk data then 0 else 1⟩

/-- Observable outcome of one datagram through the client read loop
(`UDPSession.readLoop`, sess.go lines 655-686): the `KCP.Input` calls
made, the `InCsumErrors` increment, and any error surfaced to a caller. -/
structure ReadLoopOut where
  calls : List (List Nat × Bool)
  csumIncr : Nat
  surfacedErr : Option String
deriving DecidableEq, Repr

/-- One datagram through the client read loop: decrypt and CRC-verify,
then hand valid payloads to `kcpInput`.  Invalid payloads are dropped
with the counter incremented and nothing surfaced. -/
def readLoopStep (decrypt : List Nat → List Nat) (crc : List Nat → Nat)
    (hasBlock fecEnabled : Bool) (inputOk : List Nat → Bool)
    (recovers : List (List Nat)) (raw : List Nat) : ReadLoopOut :=
  let co := cryptoCheck decrypt crc hasBlock raw
  match co.valid with
  | some d => ⟨(kcpInput fecEnabled inputOk recovers d).calls, co.csumIncr, co.surfacedErr⟩
  | none => ⟨[], co.csumIncr, co.surfacedErr⟩

/-- Listener state that the monitor loop touches: the keys of the
session map, the current length of the bounded accept queue `chAccepts`
(capacity `acceptBacklog`), and whether a FEC decoder is configured. -/
structure ListenerState where
  sessions : List String
  acceptLen : Nat
  fecEnabled : Bool
deriving DecidableEq, Repr

/-- Observable outcome of one datagram through `Listener.monitor`. -/
structure MonitorOut where
  st : ListenerState
  created : Bool
  convUsed : Option Nat
  inputs : List (String × List Nat)
  csumIncr : Nat
  surfacedErr : Option String
deriving DecidableEq, Repr

/-- One datagram through `Listener.monitor` (sess.go lines 721-790):
decrypt and CRC-verify; on a valid payload look the peer up in the
session map (the last-used cache only short-circuits this lookup and is
not modelled); feed an existing session; otherwise, when the accept
queue has room, extract the conversation id — at offset 0 without FEC,
or at offset `fecHeaderSizePlus2` iff the FEC flag at offset 4 equals
`typeData` — and only then create the session, feed it the datagram,
insert it into the map and enqueue it on the accept queue. -/
def monitorStep (decrypt : List Nat → List Nat) (crc : List Nat → Nat)
    (hasBlock : Bool) (st : ListenerState) (addr : String) (raw : List Nat) : MonitorOut :=
  let co := cryptoCheck decrypt crc hasBlock raw
  match co.valid with
  | none => ⟨st, false, none, [], co.csumIncr, co.surfacedErr⟩
  | some data =>
    if st.sessions.contains addr then
      ⟨st, false, none, [(addr, data)], co.csumIncr, co.surfacedErr⟩
    else if st.acceptLen < acceptBacklog then
      if st.fecEnabled then
        if leUint16 (data.drop 4) = typeData then
          ⟨{ st with sessions := st.sessions ++ [addr], acceptLen := st.acceptLen + 1 },
           true, some (leUint32 (data.drop fecHeaderSizePlus2)), [(addr, data)],
           co.csumIncr, co.surfacedErr⟩
        else ⟨st, false, none, [], co.csumIncr, co.surfacedErr⟩
      else
        ⟨{ st with sessions := st.sessions ++ [addr], acceptLen := st.acceptLen + 1 },
         true, some (leUint32 data), [(addr, data)], co.csumIncr, co.surfacedErr⟩
    else ⟨st, false, none, [], co.csumIncr, co.surfacedErr⟩

/-- Header extension of `UDPSession.output` step 0 (sess.go lines
477-482): with a nonzero `headerSize` the KCP frame is copied behind a
`headerSize`-byte prefix taken from the session's `ext` buffer.  The
prefix bytes are placeholders (zeros) until the FEC encoder and the
crypto stage overwrite them. -/
def mkExt (headerSize : Nat) (buf : List Nat) : List Nat :=
  if 0 < headerSize then List.replicate headerSize 0 ++ buf else buf

/-- Steps 2 and 3 of `UDPSession.output` (sess.go lines 490-502) on one
outgoing packet: fill the 16-byte nonce, store the little-endian CRC32
of everything after the crypto header into the four bytes after the
nonce, and encrypt the whole packet in place.  The cipher and the
checksum are oracle parameters; without crypto the packet is untouched. -/
def sealPacket (hasBlock : Bool) (encrypt : List Nat → List Nat) (crc : List Nat → Nat)
    (nonce : List Nat) (pkt : List Nat) : List Nat :=
  if hasBlock then
    encrypt (nonce.take nonceSize ++ putUint32 (crc (pkt.drop cryptHeaderSize))
             ++ pkt.drop cryptHeaderSize)
  else pkt

/-- The duplication loop of `UDPSession.output` step 4 (sess.go lines
507-512): `for i := 0; i < dup+1; i++` writes the data packet once per
iteration. -/
def dupWrites (pkt : List Nat) : Nat → List (List Nat)
  | 0 => []
  | n + 1 => dupWrites pkt n ++ [pkt]

/-- The carrier writes of one `UDPSession.output` call (sess.go lines
474-522): the sealed data packet is written `dup+1` times, then each
parity packet the FEC encoder returned (`ecc`, an oracle parameter
standing for `fecEncoder.encode(ext)`; fec.go is not under the given
source tree) is sealed with its own nonce and written once.  `nonce k`
is the k-th value the nonce generator produces during the call. -/
def outputWrites (dup : Nat) (hasBlock : Bool) (encrypt : List Nat → List Nat)
    (crc : List Nat → Nat) (nonce : Nat → List Nat)
    (ext : List Nat) (ecc : List (List Nat)) : List (List Nat) :=
  let sealedData := sealPacket hasBlock encrypt crc (nonce 0) ext
  let sealedEcc := (List.range ecc.length).map
    (fun k => sealPacket hasBlock encrypt crc (nonce (k + 1)) (ecc.getD k []))
  dupWrites sealedData (dup + 1) ++ sealedEcc

/-- The KCP output callback installed by `newUDPSession` (sess.go lines
157-161): only a buffer of at least `IKCP_OVERHEAD` bytes reaches
`UDPSession.output`; anything shorter is discarded and produces no
datagram. -/
def outputCallback (dup : Nat) (hasBlock : Bool) (encrypt : List Nat → List Nat)
    (crc : List Nat → Nat) (nonce : Nat → List Nat) (headerSize : Nat)
    (ecc : List (List Nat)) (buf : List Nat) (size : Nat) : List (List Nat) :=
  if IKCP_OVERHEAD ≤ size then
    outputWrites dup hasBlock encrypt crc nonce (mkExt headerSize (buf.take size)) ecc
  else []

/-- Sample KCP core state for concrete evaluations: MSS 3, send window
2, everything else idle. -/
def kcp0 : KCP :=
  { mss := 3, snd_wnd := 2, rmt_wnd := 16, cwnd := 16, nocwnd := false,
    snd_queue := [], snd_buf := [], ackList := [], rcv_queue := [] }

/-- Sample open client session over `kcp0`. -/
def sess0 : UDPSession :=
  { isClosed := false, isClient := true, connCloseResult := none,
    writeDelay := false, dup := 0, headerSize := 0, bufptr := [], kcp := kcp0 }

/-- Sample open session holding one leftover stream byte in `bufptr`,
as left behind by a `Read` into a one-byte buffer of a two-byte KCP
message (sess.go lines 213-218). -/
def sessLeftover : UDPSession := { sess0 with bufptr := [7] }

/-- Sample encrypted datagram whose stored CRC word (1) cannot match a
checksum function returning 0. -/
def rawBad : List Nat := List.replicate nonceSize 0 ++ [1, 0, 0, 0]

/-- Sample empty listener state with FEC enabled. -/
def lst0 : ListenerState := { sessions := [], acceptLen := 0, fecEnabled := true }

/-- Sample FEC data-shard datagram: sequence 9, flag `typeData` at
offset 4, conversation id 42 at offset `fecHeaderSizePlus2`. -/
def datagramData : List Nat := [9, 0, 0, 0, 0xF1, 0, 0, 0, 42, 0, 0, 0]

/-- Unfolding lemma for `KCP.send`: it only appends to the send queue,
one `Seg` per chunk of the fragmented input, nothing for an empty
input. -/
theorem KCP.send_eq (k : KCP) (b : List Nat) :
    k.send b = { k with snd_queue := k.snd_queue ++
      (if b.isEmpty then [] else (goChunks k.mss b).map (fun c => ⟨c, false⟩)) } := by
  unfold KCP.send
  by_cases h : b.isEmpty <;> simp [h]

/-- Sending an empty slice leaves the core unchanged. -/
theorem KCP.send_nil (k : KCP) : k.send [] = k := by
  simp [KCP.send]

/-- Sending does not change the MSS. -/
theorem KCP.send_mss (k : KCP) (b : List Nat) : (k.send b).mss = k.mss := by
  rw [KCP.send_eq]

/-- A slice that already fits in the MSS forms a single chunk. -/
theorem goChunks_of_le (m : Nat) (b : List Nat) (h : b.length ≤ m + 1) :
    goChunks (m + 1) b = [b] := by
  unfold goChunks
  simp [h]

/-- Unfolding for the recursive case of the fragmentation loop. -/
theorem goChunks_of_gt (m : Nat) (b : List Nat) (h : ¬ b.length ≤ m + 1) :
    goChunks (m + 1) b = b.take (m + 1) :: goChunks (m + 1) (b.drop (m + 1)) := by
  rw [goChunks]
  simp [h]

/-- Fuel-indexed flattening property of the fragmentation loop. -/
theorem goChunks_flatten_aux (m : Nat) :
    ∀ (n : Nat) (b : List Nat), b.length ≤ n → (goChunks (m + 1) b).flatten = b := by
  intro n
  induction n with
  | zero =>
    intro b hb
    have : b = [] := List.length_eq_zero.mp (Nat.le_zero.mp hb)
    subst this
    simp [goChunks_of_le m [] (by simp)]
  | succ n ih =>
    intro b hb
    by_cases h : b.length ≤ m + 1
    · simp [goChunks_of_le m b h]
    · rw [goChunks_of_gt m b h]
      have hd : (b.drop (m + 1)).length ≤ n := by
        simp only [List.length_drop]
        omega
      simp [ih (b.drop (m + 1)) hd]

/-- The fragmentation loop of `Write` partitions its input: the chunks
concatenate back to the original slice. -/
theorem goChunks_flatten (m : Nat) (b : List Nat) :
    (goChunks (m + 1) b).flatten = b :=
  goChunks_flatten_aux m b.length b le_rfl

/-- Feeding an empty slice through the `Write` loop is a no-op. -/
theorem sendLoop_nil (mss : Nat) (k : KCP) : sendLoop mss k [] = k := by
  cases mss <;> simp [sendLoop, KCP.send_nil]

/-- Fuel-indexed closed form of the `Write` fragmentation loop: it
appends exactly the chunks of the input to the send queue. -/
theorem sendLoop_eq_aux (m : Nat) :
    ∀ (n : Nat) (b : List Nat), b.length ≤ n → ∀ (k : KCP), k.mss = m + 1 →
      sendLoop (m + 1) k b = { k with snd_queue := k.snd_queue ++
        (if b.isEmpty then [] else (goChunks (m + 1) b).map (fun c => ⟨c, false⟩)) } := by
  intro n
  induction n with
  | zero =>
    intro b hb k hk
    have : b = [] := List.length_eq_zero.mp (Nat.le_zero.mp hb)
    subst this
    simp [sendLoop_nil]
  | succ n ih =>
    intro b hb k hk
    by_cases h : b.length ≤ m + 1
    · rw [sendLoop, if_pos h, KCP.send_eq, hk]
    · rw [sendLoop, if_neg h]
      have htake : (b.take (m + 1)).isEmpty = false := by
        simp [List.isEmpty_iff, ← List.length_pos]
        omega
      have hdropne : (b.drop (m + 1)).isEmpty = false := by
        simp [List.isEmpty_iff, ← List.length_pos, List.length_drop]
        omega
      have hdlen : (b.drop (m + 1)).length ≤ n := by
        simp only [List.length_drop]; omega
      have hmss : (k.send (b.take (m + 1))).mss = m + 1 := by
        rw [KCP.send_mss, hk]
      rw [ih (b.drop (m + 1)) hdlen (k.send (b.take (m + 1))) hmss]
      rw [KCP.send_eq, hk]
      have hbe : b.isEmpty = false := by
        simp [List.isEmpty_iff, ← List.length_pos]
        omega
      have htl : (b.take (m + 1)).length ≤ m + 1 := by
        simp
      rw [goChunks_of_gt m b h]
      simp [htake, hdropne, hbe, goChunks_of_le m (b.take (m + 1)) htl]

/-- Closed form of the `Write` fragmentation loop for a positive MSS. -/
theorem sendLoop_eq (m : Nat) (k : KCP) (b : List Nat) (hk : k.mss = m + 1) :
    sendLoop (m + 1) k b = { k with snd_queue := k.snd_queue ++
      (if b.isEmpty then [] else (goChunks (m + 1) b).map (fun c => ⟨c, false⟩)) } :=
  sendLoop_eq_aux m b.length b le_rfl k hk

/-- Flushing moves segments between queue and buffer but neither adds
nor drops any: the pending payloads are preserved. -/
theorem KCP.flush_fst_pendingPayloads (k : KCP) :
    (k.flush).1.pendingPayloads = k.pendingPayloads := by
  unfold KCP.flush KCP.pendingPayloads
  simp only [List.map_append, List.map_map, List.append_assoc]
  have hcomp : (Seg.payload ∘ fun g => ({ g with needResend := false } : Seg)) = Seg.payload := by
    funext g
    rfl
  rw [hcomp, ← List.map_append, List.take_append_drop]

/-- Clearing the resend flag is the identity on a buffer whose segments
all have the flag unset. -/
theorem map_clear_of_no_resend :
    ∀ (l : List Seg), (∀ g ∈ l, g.needResend = false) →
      l.map (fun g => ({ g with needResend := false } : Seg)) = l := by
  intro l hl
  induction l with
  | nil => rfl
  | cons x xs ih =>
    have hx := hl x (by simp)
    cases x with
    | mk p nr =>
      simp only at hx
      subst hx
      simp only [List.map_cons, List.cons.injEq, true_and]
      exact ih (fun g hg => hl g (List.mem_cons_of_mem _ hg))

/-- A quiescent core — empty send queue, no pending acks, no segment
due for retransmission — is a fixed point of flush and emits nothing. -/
theorem KCP.flush_quiescent (k : KCP) (hq : k.snd_queue = []) (ha : k.ackList = [])
    (hr : ∀ g ∈ k.snd_buf, g.needResend = false) : k.flush = (k, []) := by
  have hfilter : k.snd_buf.filter (fun g => g.needResend) = [] := by
    rw [List.filter_eq_nil_iff]
    intro g hg
    simp [hr g hg]
  obtain ⟨mss, sw, rw', cw, nc, sq, sb, al, rq⟩ := k
  simp only at hq ha hr hfilter
  subst hq
  subst ha
  unfold KCP.flush
  simp [hfilter, map_clear_of_no_resend sb hr]

/-- Payload view of appending segments to the send queue. -/
theorem pendingPayloads_append (k : KCP) (segs : List Seg) :
    ({ k with snd_queue := k.snd_queue ++ segs } : KCP).pendingPayloads =
      k.pendingPayloads ++ segs.map Seg.payload := by
  unfold KCP.pendingPayloads
  simp

/-- Saturated-window branch of one `Write` attempt: nothing is
enqueued, nothing flushed, and the attempt blocks or times out. -/
theorem writeStep_saturated (s : UDPSession) (wdPassed : Bool) (b : List Nat)
    (hopen : s.isClosed = false) (hsat : s.kcp.snd_wnd ≤ s.kcp.waitSnd) :
    (s.writeStep wdPassed b).res = (if wdPassed then WriteResult.timeout else WriteResult.blocked) ∧
    (s.writeStep wdPassed b).sess = s ∧
    (s.writeStep wdPassed b).flushed = false ∧
    (s.writeStep wdPassed b).out = [] := by
  have hlt : ¬ s.kcp.waitSnd < s.kcp.snd_wnd := by omega
  unfold UDPSession.writeStep
  rw [hopen]
  by_cases hw : wdPassed <;> simp [hlt, hw]

/-- Admitted branch of one `Write` attempt: the whole slice is chunked
onto the send queue, the attempt reports `len(b)`, and flush fires
exactly when the queue saturated or `writeDelay` is off. -/
theorem writeStep_admitted (s : UDPSession) (wdPassed : Bool) (b : List Nat)
    (hopen : s.isClosed = false) (hwnd : s.kcp.waitSnd < s.kcp.snd_wnd)
    (m : Nat) (hm : s.kcp.mss = m + 1) :
    (s.writeStep wdPassed b).res = WriteResult.ok b.length ∧
    (s.writeStep wdPassed b).sess.kcp.pendingPayloads =
      s.kcp.pendingPayloads ++ (if b.isEmpty then [] else goChunks (m + 1) b) ∧
    ((s.writeStep wdPassed b).flushed = true ↔
      (s.kcp.snd_wnd ≤ (sendLoop (m + 1) s.kcp b).waitSnd ∨ s.writeDelay = false)) ∧
    (s.writeStep wdPassed b).out =
      (if s.kcp.snd_wnd ≤ (sendLoop (m + 1) s.kcp b).waitSnd ∨ s.writeDelay = false
       then ((sendLoop (m + 1) s.kcp b).flush).2 else []) := by
  have hpend : (sendLoop (m + 1) s.kcp b).pendingPayloads =
      s.kcp.pendingPayloads ++ (if b.isEmpty then [] else goChunks (m + 1) b) := by
    rw [sendLoop_eq m s.kcp b hm, pendingPayloads_append]
    by_cases he : b.isEmpty
    · simp [he]
    · simp only [he, if_false, Bool.false_eq_true, List.map_map]
      have : (Seg.payload ∘ fun c => (⟨c, false⟩ : Seg)) = id := by
        funext c
        rfl
      rw [this, List.map_id]
  unfold UDPSession.writeStep
  rw [hopen, hm]
  by_cases hfl : s.kcp.snd_wnd ≤ (sendLoop (m + 1) s.kcp b).waitSnd ∨ s.writeDelay = false
  · have hfl' : (sendLoop (m + 1) s.kcp b).waitSnd ≥ s.kcp.snd_wnd ∨ s.writeDelay = false := hfl
    simp only [Bool.false_eq_true, if_false, if_pos hwnd, if_pos hfl', if_pos hfl]
    refine ⟨trivial, ?_, by simp [hfl], trivial⟩
    rw [KCP.flush_fst_pendingPayloads, hpend]
  · have hfl' : ¬ ((sendLoop (m + 1) s.kcp b).waitSnd ≥ s.kcp.snd_wnd ∨ s.writeDelay = false) := hfl
    simp only [Bool.false_eq_true, if_false, if_pos hwnd, if_neg hfl', if_neg hfl]
    exact ⟨trivial, hpend, by simp [hfl], trivial⟩

/-- Closing an already-closed session returns broken-pipe and changes
nothing. -/
theorem UDPSession.close_of_closed (s : UDPSession) (h : s.isClosed = true) :
    s.close = (some errBrokenPipe, s) := by
  unfold UDPSession.close
  simp [h]

/-- A `Write` attempt on a closed session fails with broken-pipe and
does nothing. -/
theorem UDPSession.writeStep_closed (s : UDPSession) (h : s.isClosed = true)
    (wdPassed : Bool) (b : List Nat) :
    s.writeStep wdPassed b = ⟨.brokenPipe, s, [], false⟩ := by
  unfold UDPSession.writeStep
  simp [h]

/-- A `Read` attempt on a closed session serves any leftover `bufptr`
bytes first and otherwise fails with broken-pipe. -/
theorem UDPSession.readStep_closed (s : UDPSession) (h : s.isClosed = true)
    (cap : Nat) (rdPassed : Bool) :
    s.readStep cap rdPassed =
      (if s.bufptr.isEmpty then (ReadResult.brokenPipe, s)
       else (ReadResult.data (s.bufptr.take (min cap s.bufptr.length)),
             { s with bufptr := s.bufptr.drop (min cap s.bufptr.length) })) := by
  unfold UDPSession.readStep
  by_cases he : s.bufptr.isEmpty
  · simp [he, h]
  · simp [he]

/-- Claim C1, amended (the claim as frozen fails, see the
counterexample): the first `Close` succeeds — returning nil for an
accepted session and the carrier's close result for a client session —
and every further `Close` and every `Write` attempt afterwards fails
with broken-pipe.  A `Read` after `Close` fails with broken-pipe once
the leftover stream bytes in `bufptr` are drained; while leftovers
remain, `Read` keeps returning them (sess.go checks `bufptr` before
`isClosed`, lines 187-197). -/
theorem c1_close_semantics (s : UDPSession) (wdPassed rdPassed : Bool)
    (b : List Nat) (cap : Nat) :
    (s.close).1 = (if s.isClosed then some errBrokenPipe
                   else if s.isClient then s.connCloseResult else none) ∧
    (s.close).2.isClosed = true ∧
    ((s.close).2.close).1 = some errBrokenPipe ∧
    ((s.close).2.writeStep wdPassed b).res = WriteResult.brokenPipe ∧
    ((s.close).2.readStep cap rdPassed).1 =
      (if (s.close).2.bufptr.isEmpty then ReadResult.brokenPipe
       else ReadResult.data ((s.close).2.bufptr.take (min cap (s.close).2.bufptr.length))) ∧
    ((s.close).2.readStep cap rdPassed).2.bufptr =
      (s.close).2.bufptr.drop (min cap (s.close).2.bufptr.length) := by
  have hclosed : (s.close).2.isClosed = true := by
    unfold UDPSession.close
    by_cases h1 : s.isClosed <;> by_cases h2 : s.isClient <;> simp [h1, h2]
  have hfst : (s.close).1 = (if s.isClosed then some errBrokenPipe
      else if s.isClient then s.connCloseResult else none) := by
    unfold UDPSession.close
    by_cases h1 : s.isClosed <;> by_cases h2 : s.isClient <;> simp [h1, h2]
  refine ⟨hfst, hclosed, ?_, ?_, ?_, ?_⟩
  · rw [UDPSession.close_of_closed _ hclosed]
  · rw [UDPSession.writeStep_closed _ hclosed]
  · rw [UDPSession.readStep_closed _ hclosed]
    by_cases he : (s.close).2.bufptr.isEmpty <;> simp [he]
  · rw [UDPSession.readStep_closed _ hclosed]
    by_cases he : (s.close).2.bufptr.isEmpty
    · have hnil : (s.close).2.bufptr = [] := by
        rwa [List.isEmpty_iff] at he
      simp [he, hnil]
    · simp [he]

/-- Counterexample to claim C1 as frozen: a session that closes while
one stream byte is still parked in `bufptr` (reachable by reading a
two-byte KCP message into a one-byte buffer and then calling `Close`)
answers the next `Read` with that byte, not with broken-pipe. -/
theorem c1_counterexample :
    ((sessLeftover.close).2.readStep 8 false).1 = ReadResult.data [7] ∧
    ReadResult.data [7] ≠ ReadResult.brokenPipe := by
  decide

/-- Claim C6: one `Write` attempt on an open session blocks without
enqueuing while the send window is saturated; once admitted the slice
is fed to `KCP.Send` as the MSS-sized chunk sequence `goChunks`, and
`kcp.flush` is invoked exactly when the backlog reached the send window
after enqueuing or `writeDelay` is false. -/
theorem c6_write_contract (s : UDPSession) (wdPassed : Bool) (b : List Nat)
    (hopen : s.isClosed = false) (m : Nat) (hm : s.kcp.mss = m + 1) :
    (s.kcp.snd_wnd ≤ s.kcp.waitSnd →
      ((s.writeStep wdPassed b).res = WriteResult.timeout ∨
       (s.writeStep wdPassed b).res = WriteResult.blocked) ∧
      (s.writeStep wdPassed b).sess = s ∧
      (s.writeStep wdPassed b).flushed = false) ∧
    (s.kcp.waitSnd < s.kcp.snd_wnd →
      (s.writeStep wdPassed b).res = WriteResult.ok b.length ∧
      (s.writeStep wdPassed b).sess.kcp.pendingPayloads =
        s.kcp.pendingPayloads ++ (if b.isEmpty then [] else goChunks (m + 1) b) ∧
      ((s.writeStep wdPassed b).flushed = true ↔
        (s.kcp.snd_wnd ≤ (sendLoop (m + 1) s.kcp b).waitSnd ∨ s.writeDelay = false))) := by
  constructor
  · intro hsat
    obtain ⟨h1, h2, h3, h4⟩ := writeStep_saturated s wdPassed b hopen hsat
    refine ⟨?_, h2, h3⟩
    rw [h1]
    by_cases hw : wdPassed <;> simp [hw]
  · intro hwnd
    obtain ⟨h1, h2, h3, h4⟩ := writeStep_admitted s wdPassed b hopen hwnd m hm
    exact ⟨h1, h2, h3⟩

/-- Witness for claim C6 at a concrete session: `sess0` (MSS 3, send
window 2, idle) admits a four-byte write, reports four bytes written
and flushes immediately. -/
theorem c6_write_contract_witness :
    (sess0.writeStep false [1, 2, 3, 4]).res = WriteResult.ok 4 ∧
    (sess0.writeStep false [1, 2, 3, 4]).flushed = true := by
  have h := c6_write_contract sess0 false [1, 2, 3, 4] rfl 2 rfl
  have h2 := h.2 (by decide)
  exact ⟨h2.1, h2.2.2.mpr (Or.inr rfl)⟩

/-- Claim C7: a zero-length `Write` on an open session with an
unsaturated window returns `(0, nil)` and enqueues no segment; the only
flush it can trigger is the one a bare `kcp.flush` of the pre-state
would run, and on a quiescent core that flush emits nothing. -/
theorem c7_zero_length_write (s : UDPSession) (wdPassed : Bool)
    (hopen : s.isClosed = false) (hwnd : s.kcp.waitSnd < s.kcp.snd_wnd) :
    (s.writeStep wdPassed []).res = WriteResult.ok 0 ∧
    (s.writeStep wdPassed []).sess.kcp.pendingPayloads = s.kcp.pendingPayloads ∧
    (s.writeStep wdPassed []).out = (if s.writeDelay then [] else (s.kcp.flush).2) ∧
    (s.kcp.snd_queue = [] → s.kcp.ackList = [] →
      (∀ g ∈ s.kcp.snd_buf, g.needResend = false) → (s.writeStep wdPassed []).out = []) := by
  have hns : ¬ s.kcp.snd_wnd ≤ s.kcp.waitSnd := by omega
  unfold UDPSession.writeStep
  rw [hopen]
  rw [sendLoop_nil s.kcp.mss s.kcp]
  by_cases hd : s.writeDelay
  · have hcond : ¬ (s.kcp.waitSnd ≥ s.kcp.snd_wnd ∨ s.writeDelay = false) := by
      simp [hd]
      omega
    simp only [Bool.false_eq_true, if_false, if_pos hwnd, if_neg hcond]
    exact ⟨rfl, trivial, by simp [hd], fun _ _ _ => trivial⟩
  · have hd' : s.writeDelay = false := by
      simpa using hd
    have hcond : s.kcp.waitSnd ≥ s.kcp.snd_wnd ∨ s.writeDelay = false := Or.inr hd'
    simp only [Bool.false_eq_true, if_false, if_pos hwnd, if_pos hcond]
    refine ⟨rfl, KCP.flush_fst_pendingPayloads s.kcp, by simp [hd'], ?_⟩
    intro hq ha hr
    simp [KCP.flush_quiescent s.kcp hq ha hr]

/-- Witness for claim C7 at the concrete idle session `sess0`. -/
theorem c7_zero_length_write_witness :
    (sess0.writeStep false []).res = WriteResult.ok 0 ∧
    (sess0.writeStep false []).out = [] := by
  have h := c7_zero_length_write sess0 false rfl (by decide)
  refine ⟨h.1, h.2.2.2 rfl rfl ?_⟩
  intro g hg
  simp [sess0, kcp0] at hg

/-- Claim C10: an admitted `Write` is never partial — it reports
`len(b)` and the send side afterwards holds exactly the old pending
bytes followed by all of `b`, no matter how `b` compares with the
remaining window room (the saturation check runs only before enqueuing
begins). -/
theorem c10_no_partial_write (s : UDPSession) (wdPassed : Bool) (b : List Nat)
    (hopen : s.isClosed = false) (hwnd : s.kcp.waitSnd < s.kcp.snd_wnd)
    (m : Nat) (hm : s.kcp.mss = m + 1) :
    (s.writeStep wdPassed b).res = WriteResult.ok b.length ∧
    (s.writeStep wdPassed b).sess.kcp.pendingBytes = s.kcp.pendingBytes ++ b := by
  obtain ⟨h1, h2, h3, h4⟩ := writeStep_admitted s wdPassed b hopen hwnd m hm
  refine ⟨h1, ?_⟩
  unfold KCP.pendingBytes
  rw [h2, List.flatten_append]
  by_cases he : b.isEmpty
  · have : b = [] := by
      rwa [List.isEmpty_iff] at he
    simp [he, this]
  · simp only [he, Bool.false_eq_true, if_false]
    rw [goChunks_flatten]

/-- Witness for claim C10: `sess0` has window room 2 but the seven-byte
slice needs three MSS-3 chunks; it is still enqueued in full. -/
theorem c10_no_partial_write_witness :
    (sess0.writeStep false [1, 2, 3, 4, 5, 6, 7]).res = WriteResult.ok 7 ∧
    (sess0.writeStep false [1, 2, 3, 4, 5, 6, 7]).sess.kcp.pendingBytes =
      [1, 2, 3, 4, 5, 6, 7] := by
  have h := c10_no_partial_write sess0 false [1, 2, 3, 4, 5, 6, 7] rfl (by decide) 2 rfl
  refine ⟨h.1, ?_⟩
  have h2 := h.2
  simpa [sess0, kcp0, KCP.pendingBytes, KCP.pendingPayloads] using h2

/-- Appending one shard to the recovered-shard loop extends the call
list by its slice when the shard is consistent and by nothing
otherwise. -/
theorem processRecovers_concat_calls (inputOk : List Nat → Bool)
    (rs : List (List Nat)) (r : List Nat) :
    (processRecovers inputOk (rs ++ [r])).calls =
      (processRecovers inputOk rs).calls ++
        (match recoveredAction r with
         | some p => [(p, false)]
         | none => []) := by
  unfold processRecovers
  rw [List.foldl_append]
  simp only [List.foldl_cons, List.foldl_nil]
  cases hra : recoveredAction r with
  | none => simp [hra]
  | some p => by_cases hok : inputOk p <;> simp [hra, hok]

/-- Appending one shard to the recovered-shard loop adds one `FECErrs`
exactly when the shard is inconsistent. -/
theorem processRecovers_concat_fecErrs (inputOk : List Nat → Bool)
    (rs : List (List Nat)) (r : List Nat) :
    (processRecovers inputOk (rs ++ [r])).fecErrs =
      (processRecovers inputOk rs).fecErrs +
        (if recoveredAction r = none then 1 else 0) := by
  unfold processRecovers
  rw [List.foldl_append]
  simp only [List.foldl_cons, List.foldl_nil]
  cases hra : recoveredAction r with
  | none => simp [hra]
  | some p => by_cases hok : inputOk p <;> simp [hra, hok]

/-- Claim C2: with crypto enabled, a datagram whose computed CRC32
differs from the stored word is dropped by both ingress paths — no
`KCP.Input` call is made, `InCsumErrors` rises by exactly one, no
session is created, and no error is surfaced to any caller. -/
theorem c2_crc_mismatch_dropped (decrypt : List Nat → List Nat) (crc : List Nat → Nat)
    (fecEnabled : Bool) (inputOk : List Nat → Bool) (recovers : List (List Nat))
    (st : ListenerState) (addr : String) (raw : List Nat)
    (hmis : crc ((decrypt raw).drop (nonceSize + crcSize)) ≠
            leUint32 ((decrypt raw).drop nonceSize)) :
    readLoopStep decrypt crc true fecEnabled inputOk recovers raw = ⟨[], 1, none⟩ ∧
    monitorStep decrypt crc true st addr raw = ⟨st, false, none, [], 1, none⟩ := by
  have hco : cryptoCheck decrypt crc true raw = ⟨none, 1, none⟩ := by
    unfold cryptoCheck
    simp [hmis]
  constructor
  · unfold readLoopStep
    rw [hco]
  · unfold monitorStep
    rw [hco]

/-- Witness for claim C2 at a concrete mismatching datagram. -/
theorem c2_crc_mismatch_dropped_witness :
    readLoopStep id (fun _ => 0) true false (fun _ => true) [] rawBad = ⟨[], 1, none⟩ ∧
    monitorStep id (fun _ => 0) true lst0 "peer" rawBad = ⟨lst0, false, none, [], 1, none⟩ :=
  c2_crc_mismatch_dropped id (fun _ => 0) false (fun _ => true) [] lst0 "peer" rawBad
    (by decide)

/-- Claim C3: for a datagram from an unknown peer the monitor creates a
session only when the accept queue has room and the conversation id is
accessible — at offset 0 without FEC, at offset `fecHeaderSizePlus2`
iff the FEC flag equals `typeData`; a parity-first arrival never
creates a session; and the accept queue never grows beyond
`acceptBacklog`. -/
theorem c3_session_admission (decrypt : List Nat → List Nat) (crc : List Nat → Nat)
    (hasBlock : Bool) (st : ListenerState) (addr : String) (raw : List Nat)
    (data : List Nat)
    (hnew : st.sessions.contains addr = false)
    (hdata : (cryptoCheck decrypt crc hasBlock raw).valid = some data) :
    ((monitorStep decrypt crc hasBlock st addr raw).created = true →
      st.acceptLen < acceptBacklog ∧
      (st.fecEnabled = false ∨ leUint16 (data.drop 4) = typeData) ∧
      (monitorStep decrypt crc hasBlock st addr raw).convUsed =
        some (if st.fecEnabled then leUint32 (data.drop fecHeaderSizePlus2)
              else leUint32 data)) ∧
    (st.fecEnabled = true → leUint16 (data.drop 4) = typeFEC →
      (monitorStep decrypt crc hasBlock st addr raw).created = false) ∧
    (acceptBacklog ≤ st.acceptLen →
      (monitorStep decrypt crc hasBlock st addr raw).created = false ∧
      (monitorStep decrypt crc hasBlock st addr raw).st = st) ∧
    (st.acceptLen ≤ acceptBacklog →
      (monitorStep decrypt crc hasBlock st addr raw).st.acceptLen ≤ acceptBacklog) := by
  have hstep : monitorStep decrypt crc hasBlock st addr raw =
      (if st.acceptLen < acceptBacklog then
        if st.fecEnabled then
          if leUint16 (data.drop 4) = typeData then
            ⟨{ st with sessions := st.sessions ++ [addr], acceptLen := st.acceptLen + 1 },
             true, some (leUint32 (data.drop fecHeaderSizePlus2)), [(addr, data)],
             (cryptoCheck decrypt crc hasBlock raw).csumIncr,
             (cryptoCheck decrypt crc hasBlock raw).surfacedErr⟩
          else ⟨st, false, none, [], (cryptoCheck decrypt crc hasBlock raw).csumIncr,
                (cryptoCheck decrypt crc hasBlock raw).surfacedErr⟩
        else
          ⟨{ st with sessions := st.sessions ++ [addr], acceptLen := st.acceptLen + 1 },
           true, some (leUint32 data), [(addr, data)],
           (cryptoCheck decrypt crc hasBlock raw).csumIncr,
           (cryptoCheck decrypt crc hasBlock raw).surfacedErr⟩
      else ⟨st, false, none, [], (cryptoCheck decrypt crc hasBlock raw).csumIncr,
            (cryptoCheck decrypt crc hasBlock raw).surfacedErr⟩) := by
    unfold monitorStep
    simp only [hdata, hnew, Bool.false_eq_true, if_false]
  rw [hstep]
  split_ifs with hroom hfec hflag
  · refine ⟨fun _ => ⟨hroom, Or.inr hflag, by simp [hfec]⟩, fun _ hfe => ?_, fun hfull => ?_,
      fun _ => ?_⟩
    · rw [hflag] at hfe
      exact absurd hfe (by decide)
    · exact absurd hfull (by omega)
    · simp only
      omega
  · exact ⟨fun hcr => by simp at hcr, fun _ _ => rfl, fun hfull => absurd hfull (by omega),
      fun h => h⟩
  · have hfec' : st.fecEnabled = false := by
      simpa using hfec
    refine ⟨fun _ => ⟨hroom, Or.inl hfec', by simp [hfec']⟩, fun hfe _ => ?_, fun hfull => ?_,
      fun _ => ?_⟩
    · rw [hfec'] at hfe
      exact absurd hfe (by simp)
    · exact absurd hfull (by omega)
    · simp only
      omega
  · exact ⟨fun hcr => by simp at hcr, fun _ _ => rfl, fun _ => ⟨rfl, rfl⟩, fun h => h⟩

/-- Witness for claim C3: with FEC enabled, an unknown peer's data
shard with conversation id 42 creates a session and the queue stays
within the backlog. -/
theorem c3_session_admission_witness :
    (monitorStep id (fun _ => 0) false lst0 "peer" datagramData).created = true ∧
    (monitorStep id (fun _ => 0) false lst0 "peer" datagramData).convUsed = some 42 ∧
    (monitorStep id (fun _ => 0) false lst0 "peer" datagramData).st.acceptLen ≤ acceptBacklog := by
  have h := c3_session_admission id (fun _ => 0) false lst0 "peer" datagramData
    datagramData rfl rfl
  have hc : (monitorStep id (fun _ => 0) false lst0 "peer" datagramData).created = true := by
    decide
  refine ⟨hc, ?_, h.2.2.2 (by decide)⟩
  rw [(h.1 hc).2.2]
  decide

/-- Counterexample to claim C4 as frozen: the shard `[3, 0, 7]` has
little-endian prefix 3 (consistent), so the code passes `[7]` to
`KCP.Input`; under the claimed big-endian reading the prefix would be
768, inconsistent with the three-byte shard, and nothing would be
passed. -/
theorem c4_counterexample :
    recoveredAction [3, 0, 7] = some [7] ∧
    recoveredActionSpecBE [3, 0, 7] = none ∧
    recoveredAction [3, 0, 7] ≠ recoveredActionSpecBE [3, 0, 7] := by
  decide

/-- Claim C4, amended (the two-byte prefix is read little-endian, not
big-endian): a recovered shard whose little-endian prefix `sz` is
consistent yields exactly the bytes `r[2:sz]`, appended to the input
calls with `regular = false`; and for a `typeData` packet those calls
follow the packet's own regular input. -/
theorem c4_recovered_input (inputOk : List Nat → Bool) (rs : List (List Nat))
    (r : List Nat) (h2 : 2 ≤ leUint16 r) (hle : leUint16 r ≤ r.length) :
    recoveredAction r = some ((r.drop 2).take (leUint16 r - 2)) ∧
    (processRecovers inputOk (rs ++ [r])).calls =
      (processRecovers inputOk rs).calls ++ [((r.drop 2).take (leUint16 r - 2), false)] ∧
    (∀ data : List Nat, fecHeaderSize < data.length → leUint16 (data.drop 4) = typeData →
      (kcpInput true inputOk (rs ++ [r]) data).calls =
        (data.drop fecHeaderSizePlus2, true) :: (processRecovers inputOk (rs ++ [r])).calls) := by
  have hra : recoveredAction r = some ((r.drop 2).take (leUint16 r - 2)) := by
    unfold recoveredAction
    have hlen : 2 ≤ r.length := le_trans h2 hle
    simp [hlen, hle, h2]
  refine ⟨hra, ?_, ?_⟩
  · rw [processRecovers_concat_calls, hra]
  · intro data hlen hflag
    unfold kcpInput
    simp [hlen, hflag]

/-- Witness for claim C4 at the shard `[3, 0, 7]` inside a concrete
`typeData` packet. -/
theorem c4_recovered_input_witness :
    (processRecovers (fun _ => true) [[3, 0, 7]]).calls = [([7], false)] ∧
    (kcpInput true (fun _ => true) [[3, 0, 7]] datagramData).calls =
      [(datagramData.drop fecHeaderSizePlus2, true), ([7], false)] := by
  have h := c4_recovered_input (fun _ => true) [] [3, 0, 7] (by decide) (by decide)
  have h1 := h.2.1
  have h2 := h.2.2 datagramData (by decide) (by decide)
  simp only [List.nil_append] at h1 h2
  constructor
  · rw [h1]
    decide
  · rw [h2]
    decide

/-- Claim C5: a recovered shard that is shorter than two bytes, or
whose embedded length is below 2 or exceeds the shard length, is not
passed to `KCP.Input` and contributes exactly one `FECErrs`. -/
theorem c5_inconsistent_recovered (inputOk : List Nat → Bool) (rs : List (List Nat))
    (r : List Nat)
    (hbad : r.length < 2 ∨ leUint16 r < 2 ∨ r.length < leUint16 r) :
    recoveredAction r = none ∧
    (processRecovers inputOk (rs ++ [r])).calls = (processRecovers inputOk rs).calls ∧
    (processRecovers inputOk (rs ++ [r])).fecErrs =
      (processRecovers inputOk rs).fecErrs + 1 := by
  have hra : recoveredAction r = none := by
    unfold recoveredAction
    rcases hbad with h | h | h
    · simp
      omega
    · have : ¬ (leUint16 r ≤ r.length ∧ 2 ≤ leUint16 r) := by omega
      simp [this]
    · have : ¬ (leUint16 r ≤ r.length ∧ 2 ≤ leUint16 r) := by omega
      simp [this]
  refine ⟨hra, ?_, ?_⟩
  · rw [processRecovers_concat_calls, hra]
    simp
  · rw [processRecovers_concat_fecErrs, hra]
    simp

/-- Witness for claim C5 at the shard `[5, 0]`, whose embedded length 5
exceeds its two-byte buffer. -/
theorem c5_inconsistent_recovered_witness :
    recoveredAction [5, 0] = none ∧
    (processRecovers (fun _ => true) [[5, 0]]).calls = [] ∧
    (processRecovers (fun _ => true) [[5, 0]]).fecErrs = 1 := by
  have h := c5_inconsistent_recovered (fun _ => true) [] [5, 0] (by decide)
  exact ⟨h.1, by simpa using h.2.1, by simpa using h.2.2⟩

/-- The egress duplication loop writes its packet once per iteration. -/
theorem dupWrites_eq_replicate (pkt : List Nat) :
    ∀ n, dupWrites pkt n = List.replicate n pkt := by
  intro n
  induction n with
  | zero => rfl
  | succ n ih =>
    rw [dupWrites, ih, List.replicate_succ']

/-- Claim C8: the KCP output callback runs the egress pipeline exactly
for buffers of at least `IKCP_OVERHEAD` bytes; anything shorter is
silently discarded and produces no datagram, while an admitted buffer
always produces at least one. -/
theorem c8_output_size_guard (dup : Nat) (hasBlock : Bool) (encrypt : List Nat → List Nat)
    (crc : List Nat → Nat) (nonce : Nat → List Nat) (headerSize : Nat)
    (ecc : List (List Nat)) (buf : List Nat) (size : Nat) :
    (size < IKCP_OVERHEAD →
      outputCallback dup hasBlock encrypt crc nonce headerSize ecc buf size = []) ∧
    (IKCP_OVERHEAD ≤ size →
      outputCallback dup hasBlock encrypt crc nonce headerSize ecc buf size =
        outputWrites dup hasBlock encrypt crc nonce (mkExt headerSize (buf.take size)) ecc ∧
      outputCallback dup hasBlock encrypt crc nonce headerSize ecc buf size ≠ []) := by
  constructor
  · intro h
    unfold outputCallback
    rw [if_neg (by omega)]
  · intro h
    unfold outputCallback
    rw [if_pos h]
    refine ⟨rfl, ?_⟩
    simp only [outputWrites]
    rw [dupWrites_eq_replicate]
    simp [List.replicate_succ]

/-- Witness for claim C8 at sizes 23 and 24 around the KCP overhead. -/
theorem c8_output_size_guard_witness :
    outputCallback 0 false id (fun _ => 0) (fun _ => []) 0 [] (List.replicate 30 1) 23 = [] ∧
    outputCallback 0 false id (fun _ => 0) (fun _ => []) 0 [] (List.replicate 30 1) 24 ≠ [] := by
  constructor
  · exact (c8_output_size_guard 0 false id (fun _ => 0) (fun _ => []) 0 []
      (List.replicate 30 1) 23).1 (by decide)
  · exact ((c8_output_size_guard 0 false id (fun _ => 0) (fun _ => []) 0 []
      (List.replicate 30 1) 24).2 (by decide)).2

/-- Claim C9: one egress call writes the sealed data datagram exactly
`dup + 1` times and then each parity datagram the FEC encoder produced
exactly once — the parity suffix of the write sequence does not depend
on `dup`. -/
theorem c9_dup_data_parity_once (dup : Nat) (hasBlock : Bool)
    (encrypt : List Nat → List Nat) (crc : List Nat → Nat) (nonce : Nat → List Nat)
    (ext : List Nat) (ecc : List (List Nat)) :
    outputWrites dup hasBlock encrypt crc nonce ext ecc =
      List.replicate (dup + 1) (sealPacket hasBlock encrypt crc (nonce 0) ext) ++
        (List.range ecc.length).map
          (fun k => sealPacket hasBlock encrypt crc (nonce (k + 1)) (ecc.getD k [])) ∧
    (outputWrites dup hasBlock encrypt crc nonce ext ecc).take (dup + 1) =
      List.replicate (dup + 1) (sealPacket hasBlock encrypt crc (nonce 0) ext) ∧
    (outputWrites dup hasBlock encrypt crc nonce ext ecc).drop (dup + 1) =
      (List.range ecc.length).map
        (fun k => sealPacket hasBlock encrypt crc (nonce (k + 1)) (ecc.getD k [])) := by
  have heq : outputWrites dup hasBlock encrypt crc nonce ext ecc =
      List.replicate (dup + 1) (sealPacket hasBlock encrypt crc (nonce 0) ext) ++
        (List.range ecc.length).map
          (fun k => sealPacket hasBlock encrypt crc (nonce (k + 1)) (ecc.getD k [])) := by
    simp only [outputWrites]
    rw [dupWrites_eq_replicate]
  refine ⟨heq, ?_, ?_⟩
  · rw [heq, List.take_left' (by simp)]
  · rw [heq, List.drop_left' (by simp)]

end KcpGo
